import Mathlib

/-!
Verification of the pptx-to-markdown conversion core (`PPTXConverter` in
`main.py`) against its natural-language specification.

Modelling conventions
* A Python string is represented by its list of lines (`List Line`,
  `Line := List Char`): the string `"a\nb"` becomes `[a-chars, b-chars]`,
  and `""` becomes `[[]]`.  Lines never contain a newline character.
* `shape.text` is a `List Line`; `hasattr(shape, "text")` is the Boolean
  field `hasText`.
* `slide.shapes.title` returns the title-placeholder shape or `None`;
  python-pptx shape equality (`shape != slide.shapes.title`) compares the
  underlying XML elements, i.e. it is identity of the slide-shape slot,
  modelled by the position of the shape in the slide's shape list.
  `titleIdx` is that position when a title placeholder exists.
* `s.strip()` truthiness (`shape.text.strip()`) holds exactly when the
  string contains a non-whitespace character (`textNonBlank`).
* Python float arithmetic in `int((i / total_slides) * 100)` is IEEE-754
  binary64: each operation rounds its exact rational result to 53
  significant bits, round-to-nearest ties-to-even (`fl53`); all values
  that occur lie far inside the normal range, so overflow and subnormals
  are irrelevant.
* The thread's observable behaviour is a list of events: the progress
  signal emissions, the file write, and the terminal finished/error
  signal, in program order.
-/

abbrev Line := List Char

/-- A shape on a slide: whether it exposes a `text` attribute, and its
text (as a list of lines) when it does. -/
structure Shape where
  hasText : Bool
  text : List Line

/-- A slide: its ordered shape list, and the position of the shape that
`slide.shapes.title` returns, when the slide has a title placeholder. -/
structure Slide where
  shapes : List Shape
  titleIdx : Option (Fin shapes.length)

/-- Truthiness of `s.strip()`: the text has some non-whitespace character. -/
def textNonBlank (t : List Line) : Bool :=
  t.any (fun l => l.any (fun c => !c.isWhitespace))

/-- The text of `slide.shapes.title`, when a title placeholder exists. -/
def Slide.titleText (s : Slide) : Option (List Line) :=
  s.titleIdx.map (fun j => (s.shapes.get j).text)

/-- Lines contributed by `main.py` lines 40-43: `## {title.text}\n\n` when
`slide.shapes.title` is not `None`, else `## Slide {i+1}\n\n`. -/
def headingLines (s : Slide) (i : Nat) : List Line :=
  match s.titleText with
  | some [] => ["## ".data, []]
  | some (t0 :: ts) => (("## ".data ++ t0) :: ts) ++ [[]]
  | none => ["## Slide ".data ++ (toString (i + 1)).data, []]

/-- The loop of `main.py` lines 46-48 over `slide.shapes` with running
position `j`: a shape contributes `(j, its text)` when it has a `text`
attribute, its stripped text is non-empty, and it is not the title shape
(identity comparison: position `j` differs from the title position). -/
def contentPieces (tIdx : Option Nat) : Nat → List Shape → List (Nat × List Line)
  | _, [] => []
  | j, sh :: rest =>
    if sh.hasText && textNonBlank sh.text && !(tIdx == some j) then
      (j, sh.text) :: contentPieces tIdx (j + 1) rest
    else
      contentPieces tIdx (j + 1) rest

/-- The texts appended as content blocks for one slide (`{shape.text}\n\n`
for each contributing shape). -/
def Slide.contentTexts (s : Slide) : List (List Line) :=
  (contentPieces (s.titleIdx.map Fin.val) 0 s.shapes).map Prod.snd

/-- All lines one slide adds to `md_content`: the heading chunk, each
content block followed by a blank line, then `---` and a blank line
(`main.py` lines 40-51). -/
def slideLines (s : Slide) (i : Nat) : List Line :=
  headingLines s i ++ (s.contentTexts).flatMap (fun t => t ++ [[]]) ++ ["---".data, []]

/-- The `for i, slide in enumerate(prs.slides)` loop, accumulating each
slide's lines, with `i` the running index. -/
def slidesLines : Nat → List Slide → List Line
  | _, [] => []
  | i, s :: rest => slideLines s i ++ slidesLines (i + 1) rest

/-- `os.path.basename` on a POSIX path: the part after the last slash. -/
def basename (p : List Char) : List Char :=
  p.foldl (fun acc c => if c = '/' then [] else acc ++ [c]) []

/-- The lines of the whole output document: `# {basename}\n\n` then each
slide's lines (`main.py` lines 32-51). -/
def mdLines (name : List Char) (slides : List Slide) : List Line :=
  ("# ".data ++ name) :: [] :: slidesLines 0 slides

/-- Flatten document lines back to the written character stream: every
line is terminated by a newline (each piece the code appends ends in
`\n\n`, so the accumulated string is newline-terminated throughout). -/
def render (doc : List Line) : List Char :=
  doc.flatMap (fun l => l ++ ['\n'])

/-- The final value of `md_content` written to the output file. -/
def md_content (pptx_path : List Char) (slides : List Slide) : List Char :=
  render (mdLines (basename pptx_path) slides)

/-- A document line that renders as a Markdown level-2 heading: `##`
followed by a space. -/
def isH2 : Line → Bool
  | '#' :: '#' :: ' ' :: _ => true
  | _ => false

/-- A document line that is the horizontal-rule separator the converter
emits. -/
def isHR : Line → Bool
  | ['-', '-', '-'] => true
  | _ => false

/-- No line of any shape text on the slide would itself be counted as a
heading or a horizontal rule. -/
def Slide.safeTexts (s : Slide) : Bool :=
  s.shapes.all (fun sh => sh.text.all (fun l => !isHR l && !isH2 l))

/-! ### IEEE-754 binary64 model for the progress computation -/

/-- Round a rational to the nearest integer, ties to even. -/
def rnd (x : ℚ) : ℤ :=
  if x - ⌊x⌋ < 1 / 2 then ⌊x⌋
  else if 1 / 2 < x - ⌊x⌋ then ⌊x⌋ + 1
  else if ⌊x⌋ % 2 = 0 then ⌊x⌋ else ⌊x⌋ + 1

/-- Round a nonnegative rational to 53 significant binary digits
(round-to-nearest, ties-to-even): the value an IEEE-754 binary64
operation returns when its exact result is `q` (normal range). -/
def fl53 (q : ℚ) : ℚ :=
  if q ≤ 0 then 0
  else (rnd (q * 2 ^ (52 - Int.log 2 q)) : ℚ) * 2 ^ (Int.log 2 q - 52)

/-- `int((i / total) * 100)` as Python executes it: binary64 division,
binary64 multiplication by 100, truncation toward zero. -/
def pyProgress (i total : Nat) : Nat :=
  (⌊fl53 (fl53 ((i : ℚ) / (total : ℚ)) * 100)⌋).toNat

/-! ### The worker run as an event trace -/

/-- One observable step of `PPTXConverter.run`: a `progress_signal`
emission, the output-file write, a `finished_signal`, or an
`error_signal`. -/
inductive Event where
  | progress (v : Nat)
  | wrote (path : List Char) (content : List Char)
  | finished (path : List Char)
  | error (msg : List Char)
deriving DecidableEq

/-- The progress events emitted inside the slide loop. -/
def progressEvents (total : Nat) : List Event :=
  (List.range total).map (fun i => Event.progress (pyProgress i total))

/-- The inputs determining one run: the two paths, the outcome of
`Presentation(self.pptx_path)` (the Reader), and whether the output-file
write raises (`some msg`) or succeeds (`none`). -/
structure RunInput where
  pptx_path : List Char
  output_path : List Char
  reader : Except (List Char) (List Slide)
  writeResult : Option (List Char)

/-- The event trace of `PPTXConverter.run` (`main.py` lines 25-61): if the
Reader raises, the `except` block emits the error at once; otherwise the
loop emits one progress event per slide, then the document is written,
then `progress(100)` and `finished` are emitted — unless the write
raises, in which case the `except` block emits the error instead. -/
def runTrace (inp : RunInput) : List Event :=
  match inp.reader with
  | Except.error e => [Event.error e]
  | Except.ok slides =>
    match inp.writeResult with
    | some e => progressEvents slides.length ++ [Event.error e]
    | none =>
      progressEvents slides.length ++
        [Event.wrote inp.output_path (md_content inp.pptx_path slides),
         Event.progress 100,
         Event.finished inp.output_path]

/-- The progress percentages of a trace, in emission order. -/
def progressValues (tr : List Event) : List Nat :=
  tr.filterMap (fun e => match e with | Event.progress v => some v | _ => none)

/-- The documents written by a trace. -/
def writtenDocs (tr : List Event) : List (List Char) :=
  tr.filterMap (fun e => match e with | Event.wrote _ d => some d | _ => none)

/-- Terminal results: `finished_signal` or `error_signal`. -/
def isTerminal : Event → Bool
  | Event.finished _ => true
  | Event.error _ => true
  | _ => false

/-! ### Properties of the rounding functions -/

theorem floor_le_rnd (x : ℚ) : ⌊x⌋ ≤ rnd x := by
  unfold rnd
  split_ifs <;> omega

theorem rnd_le_floor_add_one (x : ℚ) : rnd x ≤ ⌊x⌋ + 1 := by
  unfold rnd
  split_ifs <;> omega

theorem rnd_le_of_le {x : ℚ} {n : ℤ} (h : x ≤ (n : ℚ)) : rnd x ≤ n := by
  have hf : ⌊x⌋ ≤ n := by
    rw [← Int.floor_intCast (α := ℚ) n]
    exact Int.floor_le_floor h
  have hfx := Int.floor_le x
  unfold rnd
  split_ifs with h1 h2 h3
  · exact hf
  · rcases lt_or_eq_of_le hf with hlt | heq
    · omega
    · exfalso
      rw [heq] at h2
      linarith
  · exact hf
  · rcases lt_or_eq_of_le hf with hlt | heq
    · omega
    · exfalso
      rw [heq] at h1 h2
      have : x - (n : ℚ) = 1 / 2 := by linarith
      linarith

theorem le_rnd_of_le {x : ℚ} {n : ℤ} (h : (n : ℚ) ≤ x) : n ≤ rnd x := by
  have hf : n ≤ ⌊x⌋ := Int.le_floor.2 h
  have := floor_le_rnd x
  omega

theorem rnd_le_of_lt_half {x : ℚ} {n : ℤ} (h : x < (n : ℚ) - 1 / 2) : rnd x ≤ n - 1 := by
  have hf : ⌊x⌋ ≤ n - 1 := by
    have : x < (n : ℚ) := by linarith
    have : ⌊x⌋ < n := Int.floor_lt.2 (by exact_mod_cast this)
    omega
  have hfx := Int.floor_le x
  unfold rnd
  split_ifs with h1 h2 h3
  · exact hf
  · rcases lt_or_eq_of_le hf with hlt | heq
    · omega
    · exfalso
      rw [heq] at h2
      push_cast at h2
      linarith
  · exact hf
  · rcases lt_or_eq_of_le hf with hlt | heq
    · omega
    · exfalso
      rw [heq] at h1 h2
      push_cast at h1 h2
      linarith

theorem rnd_mono {x y : ℚ} (h : x ≤ y) : rnd x ≤ rnd y := by
  rcases lt_or_eq_of_le (Int.floor_le_floor h) with hf | hf
  · have h1 := rnd_le_floor_add_one x
    have h2 := floor_le_rnd y
    omega
  · have hx1 := Int.floor_le x
    have hy1 := Int.floor_le y
    unfold rnd
    rw [← hf]
    split_ifs with h1 h2 h3 h4 h5 h6 h7 h8 <;>
      first
        | omega
        | (exfalso; rw [← hf] at *; linarith)

theorem rnd_intCast (n : ℤ) : rnd (n : ℚ) = n := by
  unfold rnd
  rw [Int.floor_intCast]
  rw [if_pos (by norm_num : ((n : ℚ)) - (n : ℚ) < 1 / 2)]

theorem rnd_eq_of_floor {x : ℚ} {f : ℤ} (hf : ⌊x⌋ = f) (h : x - (f : ℚ) < 1 / 2) :
    rnd x = f := by
  unfold rnd
  rw [hf, if_pos h]

theorem rnd_eq_add_one {x : ℚ} {f : ℤ} (hf : ⌊x⌋ = f) (h : 1 / 2 < x - (f : ℚ)) :
    rnd x = f + 1 := by
  unfold rnd
  rw [hf, if_neg (by linarith), if_pos h]

/-! ### Properties of `fl53` -/

theorem log2_eq_of {q : ℚ} {e : ℤ} (h0 : 0 < q) (h1 : (2 : ℚ) ^ e ≤ q)
    (h2 : q < (2 : ℚ) ^ (e + 1)) : Int.log 2 q = e := by
  have hb : (1 : ℕ) < 2 := one_lt_two
  have hc : ((2 : ℕ) : ℚ) = (2 : ℚ) := by norm_num
  have ha := (Int.zpow_le_iff_le_log hb h0 (x := e)).1 (by rw [hc]; exact h1)
  have hd := (Int.lt_zpow_iff_log_lt hb h0 (x := e + 1)).1 (by rw [hc]; exact h2)
  omega

theorem fl53_zero : fl53 0 = 0 := by simp [fl53]

theorem fl53_of_pos {q : ℚ} (h0 : 0 < q) :
    fl53 q = (rnd (q * 2 ^ (52 - Int.log 2 q)) : ℚ) * 2 ^ (Int.log 2 q - 52) := by
  unfold fl53
  rw [if_neg (by linarith)]

theorem fl53_nonneg (q : ℚ) : 0 ≤ fl53 q := by
  unfold fl53
  split_ifs with h
  · exact le_refl _
  · push_neg at h
    have hx : (0 : ℚ) ≤ q * 2 ^ (52 - Int.log 2 q) := by positivity
    have h1 : (0 : ℤ) ≤ rnd (q * 2 ^ (52 - Int.log 2 q)) :=
      le_rnd_of_le (by exact_mod_cast hx)
    have h2 : (0 : ℚ) ≤ (rnd (q * 2 ^ (52 - Int.log 2 q)) : ℚ) := by exact_mod_cast h1
    positivity

theorem fl53_le_zpow {q : ℚ} (h0 : 0 < q) : fl53 q ≤ 2 ^ (Int.log 2 q + 1) := by
  set e := Int.log 2 q with he
  have hq2 : q < (2 : ℚ) ^ (e + 1) := by
    have := Int.lt_zpow_succ_log_self (b := 2) one_lt_two q
    push_cast at this
    exact this
  have hx : q * 2 ^ (52 - e) < (2 : ℚ) ^ (e + 1) * 2 ^ (52 - e) := by
    have hp : (0 : ℚ) < 2 ^ (52 - e) := by positivity
    exact mul_lt_mul_of_pos_right hq2 hp
  have hpow : (2 : ℚ) ^ (e + 1) * 2 ^ (52 - e) = 2 ^ (53 : ℤ) := by
    rw [← zpow_add₀ (by norm_num : (2 : ℚ) ≠ 0)]
    ring_nf
  have hr : rnd (q * 2 ^ (52 - e)) ≤ 2 ^ 53 := by
    apply rnd_le_of_le
    push_cast
    rw [hpow] at hx
    calc q * 2 ^ (52 - e) ≤ 2 ^ (53 : ℤ) := le_of_lt hx
      _ = ((2 : ℚ) ^ (53 : ℕ)) := by norm_num
  rw [fl53_of_pos h0, ← he]
  calc (rnd (q * 2 ^ (52 - e)) : ℚ) * 2 ^ (e - 52)
      ≤ ((2 ^ 53 : ℤ) : ℚ) * 2 ^ (e - 52) := by
        apply mul_le_mul_of_nonneg_right _ (by positivity)
        exact_mod_cast hr
    _ = 2 ^ (e + 1) := by
        rw [show (((2 ^ 53 : ℤ) : ℚ)) = (2 : ℚ) ^ (53 : ℤ) by norm_num]
        rw [← zpow_add₀ (by norm_num : (2 : ℚ) ≠ 0)]
        rw [show (53 : ℤ) + (e - 52) = e + 1 by omega]

theorem zpow_le_fl53 {q : ℚ} (h0 : 0 < q) : (2 : ℚ) ^ Int.log 2 q ≤ fl53 q := by
  set e := Int.log 2 q with he
  have hq1 : (2 : ℚ) ^ e ≤ q := by
    have := Int.zpow_log_le_self (b := 2) one_lt_two h0
    push_cast at this
    exact this
  have hx : (2 : ℚ) ^ e * 2 ^ (52 - e) ≤ q * 2 ^ (52 - e) := by
    have hp : (0 : ℚ) ≤ 2 ^ (52 - e) := by positivity
    exact mul_le_mul_of_nonneg_right hq1 hp
  have hpow : (2 : ℚ) ^ e * 2 ^ (52 - e) = 2 ^ (52 : ℤ) := by
    rw [← zpow_add₀ (by norm_num : (2 : ℚ) ≠ 0)]
    ring_nf
  have hr : (2 ^ 52 : ℤ) ≤ rnd (q * 2 ^ (52 - e)) := by
    apply le_rnd_of_le
    push_cast
    rw [hpow] at hx
    calc ((2 : ℚ) ^ (52 : ℕ)) = (2 : ℚ) ^ (52 : ℤ) := by norm_num
      _ ≤ q * 2 ^ (52 - e) := hx
  rw [fl53_of_pos h0, ← he]
  calc (2 : ℚ) ^ e = ((2 ^ 52 : ℤ) : ℚ) * 2 ^ (e - 52) := by
        rw [show (((2 ^ 52 : ℤ) : ℚ)) = (2 : ℚ) ^ (52 : ℤ) by norm_num]
        rw [← zpow_add₀ (by norm_num : (2 : ℚ) ≠ 0)]
        rw [show (52 : ℤ) + (e - 52) = e by omega]
    _ ≤ (rnd (q * 2 ^ (52 - e)) : ℚ) * 2 ^ (e - 52) := by
        apply mul_le_mul_of_nonneg_right _ (by positivity)
        exact_mod_cast hr

theorem fl53_pos {q : ℚ} (h0 : 0 < q) : 0 < fl53 q :=
  lt_of_lt_of_le (by positivity) (zpow_le_fl53 h0)

theorem fl53_mono {x y : ℚ} (h : x ≤ y) : fl53 x ≤ fl53 y := by
  rcases le_or_lt x 0 with hx | hx
  · rw [show fl53 x = 0 by unfold fl53; rw [if_pos hx]]
    exact fl53_nonneg y
  · have hy : 0 < y := lt_of_lt_of_le hx h
    have hee : Int.log 2 x ≤ Int.log 2 y := Int.log_mono_right hx h
    rcases lt_or_eq_of_le hee with hlt | heq
    · calc fl53 x ≤ 2 ^ (Int.log 2 x + 1) := fl53_le_zpow hx
        _ ≤ 2 ^ Int.log 2 y := zpow_le_zpow_right₀ (by norm_num) (by omega)
        _ ≤ fl53 y := zpow_le_fl53 hy
    · rw [fl53_of_pos hx, fl53_of_pos hy, ← heq]
      apply mul_le_mul_of_nonneg_right _ (by positivity)
      have hr : rnd (x * 2 ^ (52 - Int.log 2 x)) ≤ rnd (y * 2 ^ (52 - Int.log 2 x)) := by
        apply rnd_mono
        exact mul_le_mul_of_nonneg_right h (by positivity)
      exact_mod_cast hr

theorem fl53_one : fl53 1 = 1 := by
  rw [fl53_of_pos one_pos, Int.log_one_right]
  rw [show (1 : ℚ) * 2 ^ ((52 : ℤ) - 0) = ((4503599627370496 : ℤ) : ℚ) by norm_num]
  rw [rnd_intCast]
  norm_num

theorem fl53_hundred : fl53 100 = 100 := by
  have he : Int.log 2 (100 : ℚ) = 6 :=
    log2_eq_of (by norm_num) (by norm_num) (by norm_num)
  rw [fl53_of_pos (by norm_num), he]
  rw [show (100 : ℚ) * 2 ^ (52 - (6 : ℤ)) = ((7036874417766400 : ℤ) : ℚ) by norm_num,
    rnd_intCast]
  norm_num

/-! ### Properties of `pyProgress` -/

theorem pyProgress_zero (total : Nat) : pyProgress 0 total = 0 := by
  unfold pyProgress
  norm_num [fl53_zero]

theorem pyProgress_mono {total : Nat} {i j : Nat} (h : i ≤ j) :
    pyProgress i total ≤ pyProgress j total := by
  unfold pyProgress
  have hd : (i : ℚ) / total ≤ (j : ℚ) / total := by
    rcases Nat.eq_zero_or_pos total with h0 | h0
    · simp [h0]
    · have ht : (0 : ℚ) < total := by exact_mod_cast h0
      exact (div_le_div_iff_of_pos_right ht).2 (by exact_mod_cast h)
  have h1 : fl53 ((i : ℚ) / total) * 100 ≤ fl53 ((j : ℚ) / total) * 100 :=
    mul_le_mul_of_nonneg_right (fl53_mono hd) (by norm_num)
  exact Int.toNat_le_toNat (Int.floor_le_floor (fl53_mono h1))

theorem pyProgress_le_100 {total i : Nat} (h : i ≤ total) : pyProgress i total ≤ 100 := by
  unfold pyProgress
  have hd : (i : ℚ) / total ≤ 1 := by
    rcases Nat.eq_zero_or_pos total with h0 | h0
    · simp [h0]
    · have ht : (0 : ℚ) < total := by exact_mod_cast h0
      exact (div_le_one ht).2 (by exact_mod_cast h)
  have h1 : fl53 ((i : ℚ) / total) * 100 ≤ 100 := by
    have := fl53_mono hd
    rw [fl53_one] at this
    nlinarith [fl53_nonneg ((i : ℚ) / total)]
  have h2 : fl53 (fl53 ((i : ℚ) / total) * 100) ≤ 100 := by
    have := fl53_mono h1
    rwa [fl53_hundred] at this
  have h3 : ⌊fl53 (fl53 ((i : ℚ) / total) * 100)⌋ ≤ 100 := by
    have := Int.floor_le_floor h2
    simpa using this
  omega

theorem fl53_le_near_one {q : ℚ} (h : q < 1 - 2 ^ (-54 : ℤ)) :
    fl53 q ≤ 1 - 2 ^ (-53 : ℤ) := by
  rcases le_or_lt q 0 with h0 | h0
  · rw [show fl53 q = 0 by unfold fl53; rw [if_pos h0]]
    norm_num
  · have hq1 : q < 1 := lt_of_lt_of_le h (by norm_num)
    have he : Int.log 2 q < 0 := by
      have := (Int.lt_zpow_iff_log_lt (b := 2) one_lt_two h0 (x := 0)).1 (by push_cast; simpa)
      exact this
    rcases lt_or_eq_of_le (show Int.log 2 q ≤ -1 by omega) with he2 | he2
    · calc fl53 q ≤ 2 ^ (Int.log 2 q + 1) := fl53_le_zpow h0
        _ ≤ 2 ^ (-1 : ℤ) := zpow_le_zpow_right₀ (by norm_num) (by omega)
        _ ≤ 1 - 2 ^ (-53 : ℤ) := by norm_num
    · rw [fl53_of_pos h0, he2]
      have hb : q * 2 ^ (52 - (-1 : ℤ)) < ((9007199254740992 : ℤ) : ℚ) - 1 / 2 := by
        calc q * 2 ^ (52 - (-1 : ℤ)) < (1 - 2 ^ (-54 : ℤ)) * 2 ^ (52 - (-1 : ℤ)) :=
              mul_lt_mul_of_pos_right h (by positivity)
          _ = ((9007199254740992 : ℤ) : ℚ) - 1 / 2 := by norm_num
      have hr : rnd (q * 2 ^ (52 - (-1 : ℤ))) ≤ 9007199254740991 := by
        have := rnd_le_of_lt_half hb
        omega
      calc (rnd (q * 2 ^ (52 - (-1 : ℤ))) : ℚ) * 2 ^ ((-1 : ℤ) - 52)
          ≤ ((9007199254740991 : ℤ) : ℚ) * 2 ^ ((-1 : ℤ) - 52) :=
            mul_le_mul_of_nonneg_right (by exact_mod_cast hr) (by positivity)
        _ ≤ 1 - 2 ^ (-53 : ℤ) := by norm_num

theorem fl53_lt_100 {p : ℚ} (h : p < 100 - 2 ^ (-47 : ℤ)) : fl53 p < 100 := by
  rcases le_or_lt p 0 with h0 | h0
  · rw [show fl53 p = 0 by unfold fl53; rw [if_pos h0]]
    norm_num
  · have hp1 : p < (2 : ℚ) ^ (7 : ℤ) := lt_of_lt_of_le h (by norm_num)
    have he : Int.log 2 p < 7 := by
      have := (Int.lt_zpow_iff_log_lt (b := 2) one_lt_two h0 (x := 7)).1 (by push_cast; simpa)
      exact this
    rcases lt_or_eq_of_le (show Int.log 2 p ≤ 6 by omega) with he2 | he2
    · calc fl53 p ≤ 2 ^ (Int.log 2 p + 1) := fl53_le_zpow h0
        _ ≤ 2 ^ (6 : ℤ) := zpow_le_zpow_right₀ (by norm_num) (by omega)
        _ < 100 := by norm_num
    · rw [fl53_of_pos h0, he2]
      have hb : p * 2 ^ (52 - (6 : ℤ)) < ((7036874417766400 : ℤ) : ℚ) - 1 / 2 := by
        calc p * 2 ^ (52 - (6 : ℤ)) < (100 - 2 ^ (-47 : ℤ)) * 2 ^ (52 - (6 : ℤ)) :=
              mul_lt_mul_of_pos_right h (by positivity)
          _ = ((7036874417766400 : ℤ) : ℚ) - 1 / 2 := by norm_num
      have hr : rnd (p * 2 ^ (52 - (6 : ℤ))) ≤ 7036874417766399 := by
        have := rnd_le_of_lt_half hb
        omega
      calc (rnd (p * 2 ^ (52 - (6 : ℤ))) : ℚ) * 2 ^ ((6 : ℤ) - 52)
          ≤ ((7036874417766399 : ℤ) : ℚ) * 2 ^ ((6 : ℤ) - 52) :=
            mul_le_mul_of_nonneg_right (by exact_mod_cast hr) (by positivity)
        _ < 100 := by norm_num

theorem pyProgress_lt_100 {total i : Nat} (hi : i < total) (hN : total < 2 ^ 54) :
    pyProgress i total < 100 := by
  unfold pyProgress
  have ht : (0 : ℚ) < total := by
    have : 0 < total := by omega
    exact_mod_cast this
  have htlt : (total : ℚ) < 2 ^ (54 : ℤ) := by
    have h2 : ((2 ^ 54 : ℕ) : ℚ) = 2 ^ (54 : ℤ) := by push_cast; norm_num
    rw [← h2]
    exact_mod_cast hN
  have hq : (i : ℚ) / total < 1 - 2 ^ (-54 : ℤ) := by
    have hi2 : (i : ℚ) ≤ (total : ℚ) - 1 := by
      have : (i : ℚ) + 1 ≤ total := by exact_mod_cast hi
      linarith
    have hstep : (i : ℚ) / total ≤ ((total : ℚ) - 1) / total :=
      (div_le_div_iff_of_pos_right ht).2 hi2
    have hone : ((total : ℚ) - 1) / total = 1 - 1 / total := by
      field_simp
    have hinv : (2 : ℚ) ^ (-54 : ℤ) < 1 / total := by
      rw [lt_div_iff₀ ht]
      calc (2 : ℚ) ^ (-54 : ℤ) * total < 2 ^ (-54 : ℤ) * 2 ^ (54 : ℤ) :=
            mul_lt_mul_of_pos_left htlt (by positivity)
        _ = 1 := by
            rw [← zpow_add₀ (by norm_num : (2 : ℚ) ≠ 0)]
            norm_num
    calc (i : ℚ) / total ≤ 1 - 1 / total := by rw [← hone]; exact hstep
      _ < 1 - 2 ^ (-54 : ℤ) := by linarith
  have hx := fl53_le_near_one hq
  have hp : fl53 ((i : ℚ) / total) * 100 < 100 - 2 ^ (-47 : ℤ) := by
    have h1 : fl53 ((i : ℚ) / total) * 100 ≤ (1 - 2 ^ (-53 : ℤ)) * 100 :=
      mul_le_mul_of_nonneg_right hx (by norm_num)
    calc fl53 ((i : ℚ) / total) * 100 ≤ (1 - 2 ^ (-53 : ℤ)) * 100 := h1
      _ < 100 - 2 ^ (-47 : ℤ) := by norm_num
  have h2 := fl53_lt_100 hp
  have h3 : ⌊fl53 (fl53 ((i : ℚ) / total) * 100)⌋ < 100 := by
    apply Int.floor_lt.2
    push_cast
    exact h2
  omega

theorem fl53_eval {q : ℚ} {e m : ℤ} (h0 : 0 < q) (he : Int.log 2 q = e)
    (hm : rnd (q * 2 ^ (52 - e)) = m) : fl53 q = (m : ℚ) * 2 ^ (e - 52) := by
  rw [fl53_of_pos h0, he, hm]

theorem fl53_29_100 : fl53 ((29 : ℚ) / 100) = (5224175567749775 : ℚ) * 2 ^ ((-2 : ℤ) - 52) := by
  have h0 : (0 : ℚ) < 29 / 100 := by norm_num
  have he : Int.log 2 ((29 : ℚ) / 100) = -2 :=
    log2_eq_of h0 (by norm_num) (by norm_num)
  have hf : ⌊(29 : ℚ) / 100 * 2 ^ (52 - (-2 : ℤ))⌋ = 5224175567749775 := by
    rw [Int.floor_eq_iff]
    constructor <;> norm_num
  have hm : rnd ((29 : ℚ) / 100 * 2 ^ (52 - (-2 : ℤ))) = 5224175567749775 :=
    rnd_eq_of_floor hf (by norm_num)
  have := fl53_eval h0 he hm
  rw [this]
  norm_num

theorem fl53_29_100_mul : fl53 ((5224175567749775 : ℚ) * 2 ^ ((-2 : ℤ) - 52) * 100) =
    (8162774324609023 : ℚ) * 2 ^ ((4 : ℤ) - 52) := by
  have h0 : (0 : ℚ) < (5224175567749775 : ℚ) * 2 ^ ((-2 : ℤ) - 52) * 100 := by positivity
  have he : Int.log 2 ((5224175567749775 : ℚ) * 2 ^ ((-2 : ℤ) - 52) * 100) = 4 :=
    log2_eq_of h0 (by norm_num) (by norm_num)
  have hf : ⌊(5224175567749775 : ℚ) * 2 ^ ((-2 : ℤ) - 52) * 100 * 2 ^ (52 - (4 : ℤ))⌋ =
      8162774324609023 := by
    rw [Int.floor_eq_iff]
    constructor <;> norm_num
  have hm : rnd ((5224175567749775 : ℚ) * 2 ^ ((-2 : ℤ) - 52) * 100 * 2 ^ (52 - (4 : ℤ))) =
      8162774324609023 :=
    rnd_eq_of_floor hf (by norm_num)
  have := fl53_eval h0 he hm
  rw [this]
  norm_num

theorem pyProgress_29_100 : pyProgress 29 100 = 28 := by
  unfold pyProgress
  rw [show ((29 : ℕ) : ℚ) / ((100 : ℕ) : ℚ) = (29 : ℚ) / 100 by push_cast; ring]
  rw [fl53_29_100, fl53_29_100_mul]
  rw [show ⌊(8162774324609023 : ℚ) * 2 ^ ((4 : ℤ) - 52)⌋ = 28 from by
    rw [Int.floor_eq_iff]
    constructor <;> norm_num]
  rfl

theorem pyProgress_huge : pyProgress 36028797018963967 36028797018963968 = 100 := by
  unfold pyProgress
  rw [show ((36028797018963967 : ℕ) : ℚ) / ((36028797018963968 : ℕ) : ℚ) =
      (36028797018963967 : ℚ) / 36028797018963968 by push_cast; ring]
  have h0 : (0 : ℚ) < 36028797018963967 / 36028797018963968 := by norm_num
  have he : Int.log 2 ((36028797018963967 : ℚ) / 36028797018963968) = -1 :=
    log2_eq_of h0 (by norm_num) (by norm_num)
  have hf : ⌊(36028797018963967 : ℚ) / 36028797018963968 * 2 ^ (52 - (-1 : ℤ))⌋ =
      9007199254740991 := by
    rw [Int.floor_eq_iff]
    constructor <;> norm_num
  have hm : rnd ((36028797018963967 : ℚ) / 36028797018963968 * 2 ^ (52 - (-1 : ℤ))) =
      9007199254740991 + 1 :=
    rnd_eq_add_one hf (by norm_num)
  rw [fl53_eval h0 he hm]
  rw [show ((9007199254740991 + 1 : ℤ) : ℚ) * 2 ^ ((-1 : ℤ) - 52) * 100 = (100 : ℚ) by norm_num]
  rw [fl53_hundred]
  rw [show ⌊(100 : ℚ)⌋ = 100 from by norm_num]
  rfl

/-! ### Counting headings and separators in the document -/

theorem isH2_of_heading (t : Line) : isH2 ("## ".data ++ t) = true := rfl

theorem isHR_of_heading (t : Line) : isHR ("## ".data ++ t) = false := rfl

theorem isH2_of_header (name : List Char) : isH2 ("# ".data ++ name) = false := rfl

theorem isHR_of_header (name : List Char) : isHR ("# ".data ++ name) = false := rfl

theorem countP_eq_zero_of_safe {p : Line → Bool} {l : List Line}
    (h : ∀ x ∈ l, p x = false) : l.countP p = 0 := by
  rw [List.countP_eq_zero]
  intro a ha
  simp [h a ha]

theorem isH2_nil : isH2 [] = false := rfl

theorem isHR_nil : isHR [] = false := rfl

theorem isH2_cons (t : Line) : isH2 ('#' :: '#' :: ' ' :: t) = true := rfl

theorem isHR_cons (t : Line) : isHR ('#' :: '#' :: ' ' :: t) = false := rfl

theorem headingLines_eq_none {s : Slide} (i : Nat) (h : s.titleIdx = none) :
    headingLines s i = ["## Slide ".data ++ (toString (i + 1)).data, []] := by
  unfold headingLines Slide.titleText
  rw [h]
  rfl

theorem headingLines_eq_some {s : Slide} {j : Fin s.shapes.length} (i : Nat)
    (h : s.titleIdx = some j) :
    headingLines s i =
      (("## ".data ++ (s.shapes.get j).text.headD []) :: (s.shapes.get j).text.tail) ++ [[]] := by
  unfold headingLines Slide.titleText
  rw [h]
  rw [show Option.map (fun j2 => (s.shapes.get j2).text) (some j) =
      some ((s.shapes.get j).text) from rfl]
  generalize (s.shapes.get j).text = t
  rcases t with - | ⟨t0, ts⟩
  · simp
  · simp

theorem headingLines_count {s : Slide} (i : Nat)
    (hsafe : s.safeTexts = true) :
    (headingLines s i).countP isH2 = 1 ∧ (headingLines s i).countP isHR = 0 := by
  rcases hj : s.titleIdx with - | j
  · rw [headingLines_eq_none i hj]
    constructor <;> rfl
  · rw [headingLines_eq_some i hj]
    have hmem : s.shapes.get j ∈ s.shapes := List.get_mem s.shapes j.val j.isLt
    have hsh : ∀ l ∈ (s.shapes.get j).text, (!isHR l && !isH2 l) = true :=
      fun l hl => (List.all_eq_true.1 ((List.all_eq_true.1 hsafe) _ hmem)) l hl
    have hts : ∀ l ∈ (s.shapes.get j).text.tail, isH2 l = false ∧ isHR l = false := by
      intro l hl
      have := hsh l (List.mem_of_mem_tail hl)
      simp only [Bool.and_eq_true, Bool.not_eq_true'] at this
      exact ⟨this.2, this.1⟩
    constructor
    · rw [show (("## ".data ++ (s.shapes.get j).text.headD []) ::
            (s.shapes.get j).text.tail) ++ [[]] =
          ("## ".data ++ (s.shapes.get j).text.headD []) ::
            ((s.shapes.get j).text.tail ++ [[]]) from rfl]
      rw [List.countP_cons, List.countP_append,
        countP_eq_zero_of_safe (fun l hl => (hts l hl).1)]
      simp [isH2_cons, List.countP_cons, isH2_nil]
    · rw [show (("## ".data ++ (s.shapes.get j).text.headD []) ::
            (s.shapes.get j).text.tail) ++ [[]] =
          ("## ".data ++ (s.shapes.get j).text.headD []) ::
            ((s.shapes.get j).text.tail ++ [[]]) from rfl]
      rw [List.countP_cons, List.countP_append,
        countP_eq_zero_of_safe (fun l hl => (hts l hl).2)]
      simp [isHR_cons, List.countP_cons, isHR_nil]

theorem contentPieces_mem {tIdx : Option Nat} :
    ∀ {shapes : List Shape} {j0 : Nat} {p : Nat × List Line},
      p ∈ contentPieces tIdx j0 shapes →
      ∃ sh, shapes[p.1 - j0]? = some sh ∧ j0 ≤ p.1 ∧ p.2 = sh.text ∧
        sh.hasText = true ∧ textNonBlank sh.text = true ∧ tIdx ≠ some p.1
  | [], j0, p, h => by simp [contentPieces] at h
  | sh :: rest, j0, p, h => by
    rw [contentPieces] at h
    split_ifs at h with hc
    · simp only [Bool.and_eq_true, bne_iff_ne, Bool.not_eq_true'] at hc
      rcases List.mem_cons.1 h with rfl | hmem
      · refine ⟨sh, ?_, le_refl _, rfl, hc.1.1, hc.1.2, ?_⟩
        · simp
        · have := hc.2
          simpa [beq_eq_false_iff_ne] using this
      · obtain ⟨sh2, hget, hle, hrest⟩ := contentPieces_mem hmem
        refine ⟨sh2, ?_, by omega, hrest⟩
        have : p.1 - j0 = (p.1 - (j0 + 1)) + 1 := by omega
        rw [this]
        simpa using hget
    · obtain ⟨sh2, hget, hle, hrest⟩ := contentPieces_mem h
      refine ⟨sh2, ?_, by omega, hrest⟩
      have : p.1 - j0 = (p.1 - (j0 + 1)) + 1 := by omega
      rw [this]
      simpa using hget

theorem contentPieces_mem_of {tIdx : Option Nat} :
    ∀ {shapes : List Shape} {j0 k : Nat} {sh : Shape},
      shapes[k]? = some sh → sh.hasText = true → textNonBlank sh.text = true →
      tIdx ≠ some (j0 + k) → (j0 + k, sh.text) ∈ contentPieces tIdx j0 shapes
  | [], j0, k, sh, hget, _, _, _ => by simp at hget
  | sh0 :: rest, j0, k, sh, hget, ht, hb, hne => by
    rcases k with - | k2
    · simp only [List.getElem?_cons_zero, Option.some_inj] at hget
      subst hget
      rw [contentPieces]
      rw [if_pos]
      · simp
      · simp only [Bool.and_eq_true, bne_iff_ne, Bool.not_eq_true']
        refine ⟨⟨ht, hb⟩, ?_⟩
        rw [beq_eq_false_iff_ne]
        simpa using hne
    · have hget2 : rest[k2]? = some sh := by simpa using hget
      have hne2 : tIdx ≠ some ((j0 + 1) + k2) := by
        intro h
        exact hne (by rw [h]; congr 1; omega)
      have ih := contentPieces_mem_of hget2 ht hb hne2
      have harith : (j0 + 1) + k2 = j0 + (k2 + 1) := by omega
      rw [contentPieces]
      split_ifs with hc
      · exact List.mem_cons_of_mem _ (by rw [← harith]; exact ih)
      · rw [← harith]; exact ih

theorem contentPieces_snd_sublist (tIdx : Option Nat) :
    ∀ (shapes : List Shape) (j0 : Nat),
      List.Sublist ((contentPieces tIdx j0 shapes).map Prod.snd) (shapes.map Shape.text)
  | [], _ => by simp [contentPieces]
  | sh :: rest, j0 => by
    rw [contentPieces, List.map_cons]
    split_ifs with hc
    · rw [List.map_cons]
      exact List.Sublist.cons₂ _ (contentPieces_snd_sublist tIdx rest (j0 + 1))
    · exact List.Sublist.cons _ (contentPieces_snd_sublist tIdx rest (j0 + 1))

theorem contentTexts_safe {s : Slide} (hsafe : s.safeTexts = true) :
    ∀ t ∈ s.contentTexts, ∀ l ∈ t, isH2 l = false ∧ isHR l = false := by
  intro t hmem l hl
  unfold Slide.contentTexts at hmem
  obtain ⟨p, hp, rfl⟩ := List.mem_map.1 hmem
  obtain ⟨sh, hget, -, hsnd, -⟩ := contentPieces_mem hp
  have hshmem : sh ∈ s.shapes := by
    have := List.getElem?_eq_some_iff.1 hget
    obtain ⟨hlt, hgete⟩ := this
    exact hgete ▸ List.getElem_mem hlt
  have hall := (List.all_eq_true.1 hsafe) _ hshmem
  rw [hsnd] at hl
  have := (List.all_eq_true.1 hall) l hl
  simp only [Bool.and_eq_true, Bool.not_eq_true'] at this
  exact ⟨this.2, this.1⟩

theorem blocks_count {s : Slide} (hsafe : s.safeTexts = true) :
    ((s.contentTexts).flatMap (fun t => t ++ [[]])).countP isH2 = 0 ∧
    ((s.contentTexts).flatMap (fun t => t ++ [[]])).countP isHR = 0 := by
  have hsf := contentTexts_safe hsafe
  constructor <;>
    (apply countP_eq_zero_of_safe
     intro x hx
     obtain ⟨t, hht, hxx⟩ := List.mem_flatMap.1 hx
     rcases List.mem_append.1 hxx with hxl | hxe)
  · exact (hsf t hht x hxl).1
  · rw [List.mem_singleton.1 hxe]; rfl
  · exact (hsf t hht x hxl).2
  · rw [List.mem_singleton.1 hxe]; rfl

theorem slideLines_count {s : Slide} (i : Nat) (hsafe : s.safeTexts = true) :
    (slideLines s i).countP isH2 = 1 ∧ (slideLines s i).countP isHR = 1 := by
  obtain ⟨h1, h2⟩ := headingLines_count i hsafe
  obtain ⟨b1, b2⟩ := blocks_count hsafe
  unfold slideLines
  rw [List.countP_append, List.countP_append, List.countP_append, List.countP_append]
  rw [h1, h2, b1, b2]
  constructor <;> rfl

theorem slidesLines_count {slides : List Slide} (hsafe : ∀ s ∈ slides, s.safeTexts = true) :
    ∀ i, (slidesLines i slides).countP isH2 = slides.length ∧
      (slidesLines i slides).countP isHR = slides.length := by
  induction slides with
  | nil => intro i; constructor <;> rfl
  | cons s rest ih =>
    intro i
    have hs := hsafe s (List.mem_cons_self s rest)
    have hrest := fun x hx => hsafe x (List.mem_cons_of_mem s hx)
    obtain ⟨c1, c2⟩ := slideLines_count i hs
    obtain ⟨r1, r2⟩ := ih hrest (i + 1)
    rw [slidesLines]
    constructor
    · rw [List.countP_append, c1, r1, List.length_cons]
      omega
    · rw [List.countP_append, c2, r2, List.length_cons]
      omega

theorem slidesLines_ends_hr {slides : List Slide} (h : slides ≠ []) :
    ∀ i, ∃ pre, slidesLines i slides = pre ++ ["---".data, []] := by
  induction slides with
  | nil => exact absurd rfl h
  | cons s rest ih =>
    intro i
    rcases rest with - | ⟨s2, rest2⟩
    · refine ⟨headingLines s i ++ (s.contentTexts).flatMap (fun t => t ++ [[]]), ?_⟩
      rw [slidesLines, slidesLines]
      unfold slideLines
      simp
    · obtain ⟨pre, hpre⟩ := ih (by simp) (i + 1)
      refine ⟨slideLines s i ++ pre, ?_⟩
      rw [slidesLines, hpre]
      simp

/-! ### Trace helper lemmas -/

theorem progressValues_append (l m : List Event) :
    progressValues (l ++ m) = progressValues l ++ progressValues m := by
  unfold progressValues
  rw [List.filterMap_append]

theorem progressValues_map_progress (f : Nat → Nat) (l : List Nat) :
    progressValues (l.map (fun i => Event.progress (f i))) = l.map f := by
  induction l with
  | nil => rfl
  | cons a t ih =>
    rw [List.map_cons, List.map_cons, progressValues, List.filterMap_cons]
    rw [progressValues] at ih
    rw [ih]

theorem progressValues_progressEvents (N : Nat) :
    progressValues (progressEvents N) = (List.range N).map (fun i => pyProgress i N) :=
  progressValues_map_progress _ _

theorem mem_progressEvents {N : Nat} {e : Event} (h : e ∈ progressEvents N) :
    ∃ i, i < N ∧ e = Event.progress (pyProgress i N) := by
  unfold progressEvents at h
  obtain ⟨i, hi, rfl⟩ := List.mem_map.1 h
  exact ⟨i, List.mem_range.1 hi, rfl⟩

theorem progressEvents_length (N : Nat) : (progressEvents N).length = N := by
  unfold progressEvents
  rw [List.length_map, List.length_range]

theorem progressEvents_getElem {N k : Nat} (hk : k < N) :
    (progressEvents N)[k]? = some (Event.progress (pyProgress k N)) := by
  unfold progressEvents
  rw [List.getElem?_map, List.getElem?_range hk]
  rfl

theorem countP_isTerminal_progressEvents (N : Nat) :
    (progressEvents N).countP isTerminal = 0 := by
  rw [List.countP_eq_zero]
  intro e he
  obtain ⟨i, -, rfl⟩ := mem_progressEvents he
  simp [isTerminal]

theorem writtenDocs_map_progress (f : Nat → Nat) (l : List Nat) :
    writtenDocs (l.map (fun i => Event.progress (f i))) = [] := by
  induction l with
  | nil => rfl
  | cons a t ih =>
    rw [List.map_cons, writtenDocs, List.filterMap_cons]
    rw [writtenDocs] at ih
    rw [ih]

theorem writtenDocs_progressEvents (N : Nat) : writtenDocs (progressEvents N) = [] :=
  writtenDocs_map_progress _ _

theorem writtenDocs_append (l m : List Event) :
    writtenDocs (l ++ m) = writtenDocs l ++ writtenDocs m := by
  unfold writtenDocs
  rw [List.filterMap_append]

/-! ### Claim C1 -/

/-- C1 (counterexample): the claim as frozen is false: a one-slide deck
whose single text box holds the line `---` yields an output document
with two horizontal-rule lines although it has only one slide. -/
theorem C1_cex :
    (mdLines "deck.pptx".data [⟨[⟨true, ["---".data]⟩], none⟩]).countP isHR = 2 ∧
    ([(⟨[⟨true, ["---".data]⟩], none⟩ : Slide)]).length = 1 := by
  constructor
  · decide
  · rfl

/-- C1 (amended): provided no line of any shape text is itself `---` or
starts with `## ` (the counterexample shows the claim fails without this
proviso), the document begins with a level-1 heading holding the source
base name followed by a blank line, contains exactly `N` level-2 heading
lines and exactly `N` horizontal-rule lines, is the header followed by
the slide chunks in which every content block is followed by a blank
line, and — when the deck is non-empty — ends with a `---` line and a
blank line, the last slide included. -/
theorem C1_amended (name : List Char) (slides : List Slide)
    (hsafe : ∀ s ∈ slides, s.safeTexts = true) :
    (∃ rest, render (mdLines name slides) = ("# ".data ++ name ++ ['\n', '\n']) ++ rest) ∧
    (mdLines name slides).countP isH2 = slides.length ∧
    (mdLines name slides).countP isHR = slides.length ∧
    (∀ s i, slideLines s i =
      headingLines s i ++ (s.contentTexts).flatMap (fun t => t ++ [[]]) ++ ["---".data, []]) ∧
    (slides ≠ [] → ∃ pre, mdLines name slides = pre ++ ["---".data, []]) := by
  refine ⟨⟨render (slidesLines 0 slides), ?_⟩, ?_, ?_, fun s i => rfl, ?_⟩
  · unfold render mdLines
    rw [List.flatMap_cons, List.flatMap_cons]
    simp [List.append_assoc]
  · rw [mdLines, List.countP_cons, List.countP_cons, (slidesLines_count hsafe 0).1]
    rw [isH2_of_header name, isH2_nil]
    simp
  · rw [mdLines, List.countP_cons, List.countP_cons, (slidesLines_count hsafe 0).2]
    rw [isHR_of_header name, isHR_nil]
    simp
  · intro h
    obtain ⟨pre, hpre⟩ := slidesLines_ends_hr h 0
    exact ⟨("# ".data ++ name) :: [] :: pre, by rw [mdLines, hpre]; rfl⟩

/-- C1 (witness): the amended claim applied to a concrete one-slide deck. -/
theorem C1_witness :
    (∀ s ∈ [(⟨[⟨true, ["Hello".data]⟩], none⟩ : Slide)], s.safeTexts = true) ∧
    (mdLines "d.pptx".data [⟨[⟨true, ["Hello".data]⟩], none⟩]).countP isH2 = 1 ∧
    (mdLines "d.pptx".data [⟨[⟨true, ["Hello".data]⟩], none⟩]).countP isHR = 1 := by
  have h : ∀ s ∈ [(⟨[⟨true, ["Hello".data]⟩], none⟩ : Slide)], s.safeTexts = true := by decide
  have happ := C1_amended "d.pptx".data [⟨[⟨true, ["Hello".data]⟩], none⟩] h
  exact ⟨h, happ.2.1, happ.2.2.1⟩

/-! ### Claim C2 -/

/-- C2 (counterexample): the claim as frozen is false on both conjuncts:
a slide whose title placeholder holds only whitespace still gets the raw
`## ` heading rather than the fallback `Slide 1`, and a title with
surrounding whitespace is emitted untrimmed. -/
theorem C2_cex :
    headingLines ⟨[⟨true, ["   ".data]⟩], some ⟨0, Nat.zero_lt_one⟩⟩ 0 =
      [("## ".data ++ "   ".data), []] ∧
    ("## ".data ++ "   ".data) ≠ "## Slide 1".data ∧
    headingLines ⟨[⟨true, [" t ".data]⟩], some ⟨0, Nat.zero_lt_one⟩⟩ 0 =
      [("## ".data ++ " t ".data), []] ∧
    ("## ".data ++ " t ".data) ≠ "## ".data ++ "t".data := by
  refine ⟨by decide, by decide, by decide, by decide⟩

/-- C2 (amended): whenever the slide has a title placeholder — whatever
its text, blank or not — the heading chunk is `## ` glued to the raw
(untrimmed) first title line, followed by the remaining title lines and a
blank line; the `Slide {i+1}` fallback is used exactly when no title
placeholder exists. -/
theorem C2_amended (s : Slide) (i : Nat) :
    (∀ j : Fin s.shapes.length, s.titleIdx = some j →
      headingLines s i =
        (("## ".data ++ (s.shapes.get j).text.headD []) :: (s.shapes.get j).text.tail) ++ [[]]) ∧
    (s.titleIdx = none →
      headingLines s i = ["## Slide ".data ++ (toString (i + 1)).data, []]) :=
  ⟨fun _ hj => headingLines_eq_some i hj, fun h => headingLines_eq_none i h⟩

/-- C2 (witness): the amended claim applied to a concrete titled slide. -/
theorem C2_witness :
    headingLines (⟨[⟨true, ["T".data]⟩], some ⟨0, Nat.zero_lt_one⟩⟩ : Slide) 5 =
      (("## ".data ++ (["T".data] : List Line).headD []) ::
        (["T".data] : List Line).tail) ++ [[]] :=
  (C2_amended ⟨[⟨true, ["T".data]⟩], some ⟨0, Nat.zero_lt_one⟩⟩ 5).1 ⟨0, Nat.zero_lt_one⟩ rfl

/-! ### Claim C3 -/

/-- C3 (counterexample): the claim as frozen is false: content blocks are
not whitespace-trimmed — a text box holding ` hi ` contributes the raw
block ` hi `, not `hi`. -/
theorem C3_cex :
    Slide.contentTexts ⟨[⟨true, [" hi ".data]⟩], none⟩ = [[" hi ".data]] ∧
    ([" hi ".data] : List Line) ≠ ["hi".data] := by
  refine ⟨by decide, by decide⟩

/-- C3 (amended): every content block is the raw (untrimmed) text of a
shape that has a text attribute, whose stripped text is non-empty and
that is not the title shape; blocks appear in shape-traversal order (a
sublist of the shape texts); and every shape meeting those conditions
contributes its block, while shapes without text capability are skipped
without error. -/
theorem C3_amended (s : Slide) :
    (∀ t ∈ s.contentTexts, textNonBlank t = true) ∧
    (∀ t ∈ s.contentTexts, ∃ k : Fin s.shapes.length,
      t = (s.shapes.get k).text ∧ (s.shapes.get k).hasText = true ∧
      s.titleIdx.map Fin.val ≠ some k.val) ∧
    List.Sublist s.contentTexts (s.shapes.map Shape.text) ∧
    (∀ k : Fin s.shapes.length, (s.shapes.get k).hasText = true →
      textNonBlank (s.shapes.get k).text = true →
      s.titleIdx.map Fin.val ≠ some k.val →
      (s.shapes.get k).text ∈ s.contentTexts) := by
  refine ⟨?_, ?_, ?_, ?_⟩
  · intro t ht
    obtain ⟨p, hp, rfl⟩ := List.mem_map.1 ht
    obtain ⟨sh, hget, -, hsnd, -, hnb, -⟩ := contentPieces_mem hp
    rw [hsnd]
    exact hnb
  · intro t ht
    obtain ⟨p, hp, rfl⟩ := List.mem_map.1 ht
    obtain ⟨sh, hget, -, hsnd, hht, hnb, hne⟩ := contentPieces_mem hp
    rw [Nat.sub_zero] at hget
    obtain ⟨hlt, hgete⟩ := List.getElem?_eq_some_iff.1 hget
    refine ⟨⟨p.1, hlt⟩, ?_, ?_, ?_⟩
    · rw [hsnd]
      rw [show (s.shapes.get ⟨p.1, hlt⟩) = sh from hgete]
    · rw [show (s.shapes.get ⟨p.1, hlt⟩) = sh from hgete]
      exact hht
    · exact hne
  · exact contentPieces_snd_sublist _ _ _
  · intro k hht hnb hne
    have hget : s.shapes[(k.val)]? = some (s.shapes.get k) := by
      rw [List.getElem?_eq_getElem k.isLt]
      rfl
    have hmem := @contentPieces_mem_of (s.titleIdx.map Fin.val) s.shapes 0 k.val
      (s.shapes.get k) hget hht hnb (by rw [Nat.zero_add]; exact hne)
    rw [Nat.zero_add] at hmem
    unfold Slide.contentTexts
    exact List.mem_map.2 ⟨(k.val, (s.shapes.get k).text), hmem, rfl⟩

/-- C3 (witness): the amended claim applied to a concrete slide with a
title, a contributing text box, and a text-free shape. -/
theorem C3_witness :
    (∀ t ∈ Slide.contentTexts ⟨[⟨true, ["T".data]⟩, ⟨false, []⟩, ⟨true, ["body".data]⟩],
        some ⟨0, by decide⟩⟩, textNonBlank t = true) ∧
    (⟨[⟨true, ["T".data]⟩, ⟨false, []⟩, ⟨true, ["body".data]⟩],
        some ⟨0, by decide⟩⟩ : Slide).contentTexts = [["body".data]] := by
  constructor
  · exact (C3_amended _).1
  · decide

/-! ### Claim C4 -/

/-- C4: the title shape never contributes a content block — the exclusion
is by shape identity (position), not by text comparison — and any
non-title text shape with non-blank text contributes its block even when
its text equals the title text. -/
theorem C4_identity_exclusion (s : Slide) (j : Fin s.shapes.length)
    (hj : s.titleIdx = some j) :
    (∀ p ∈ contentPieces (s.titleIdx.map Fin.val) 0 s.shapes, p.1 ≠ j.val) ∧
    (∀ k : Fin s.shapes.length, k.val ≠ j.val →
      (s.shapes.get k).hasText = true → textNonBlank (s.shapes.get k).text = true →
      (s.shapes.get k).text ∈ s.contentTexts) := by
  constructor
  · intro p hp hcontra
    obtain ⟨sh, -, -, -, -, -, hne⟩ := contentPieces_mem hp
    apply hne
    rw [hj, hcontra]
    rfl
  · intro k hk hht hnb
    have hne : s.titleIdx.map Fin.val ≠ some k.val := by
      rw [hj]
      intro h
      have h2 : j.val = k.val := Option.some_inj.1 h
      exact hk h2.symm
    have hget : s.shapes[(k.val)]? = some (s.shapes.get k) := by
      rw [List.getElem?_eq_getElem k.isLt]
      rfl
    have hmem := @contentPieces_mem_of (s.titleIdx.map Fin.val) s.shapes 0 k.val
      (s.shapes.get k) hget hht hnb (by rw [Nat.zero_add]; exact hne)
    rw [Nat.zero_add] at hmem
    unfold Slide.contentTexts
    exact List.mem_map.2 ⟨(k.val, (s.shapes.get k).text), hmem, rfl⟩

/-- C4 (witness): a slide whose second text box repeats the title text
`T`: the title position never contributes, yet the equal-text non-title
box does contribute. -/
theorem C4_witness :
    (∀ p ∈ contentPieces
        ((⟨[⟨true, ["T".data]⟩, ⟨true, ["T".data]⟩], some ⟨0, by decide⟩⟩ : Slide).titleIdx.map
          Fin.val) 0
        (⟨[⟨true, ["T".data]⟩, ⟨true, ["T".data]⟩], some ⟨0, by decide⟩⟩ : Slide).shapes,
      p.1 ≠ 0) ∧
    ["T".data] ∈
      (⟨[⟨true, ["T".data]⟩, ⟨true, ["T".data]⟩], some ⟨0, by decide⟩⟩ : Slide).contentTexts := by
  have h := C4_identity_exclusion
    ⟨[⟨true, ["T".data]⟩, ⟨true, ["T".data]⟩], some ⟨0, by decide⟩⟩ ⟨0, by decide⟩ rfl
  exact ⟨h.1, h.2 ⟨1, by decide⟩ (by decide) (by decide) (by decide)⟩

/-! ### Claim C5 -/

/-- C5 (counterexample): the claim as frozen is false: a run over a
one-slide deck whose write raises completes the loop, yet no progress
event of 100 is ever emitted — the code emits 100 only after the write
succeeds. -/
theorem C5_cex :
    runTrace ⟨"d.pptx".data, "d.md".data, Except.ok [⟨[], none⟩], some "disk full".data⟩ =
      [Event.progress 0, Event.error "disk full".data] ∧
    Event.progress 100 ∉
      runTrace ⟨"d.pptx".data, "d.md".data, Except.ok [⟨[], none⟩], some "disk full".data⟩ := by
  have h : runTrace ⟨"d.pptx".data, "d.md".data, Except.ok [⟨[], none⟩],
      some "disk full".data⟩ = [Event.progress 0, Event.error "disk full".data] := by
    show progressEvents 1 ++ [Event.error "disk full".data] = _
    rw [show progressEvents 1 = [Event.progress (pyProgress 0 1)] from by
      unfold progressEvents
      rfl]
    rw [pyProgress_zero]
    rfl
  refine ⟨h, ?_⟩
  rw [h]
  decide

/-- C5 (amended): the post-loop `progress(100)` event is emitted exactly
when the document write succeeds, and only after it: on success the trace
is the per-slide events, the write, 100, finished; if the write raises,
the run ends with the error signal instead and (for any deck below 2^54
slides) no progress event of 100 is ever emitted. -/
theorem C5_amended (inp : RunInput) (slides : List Slide)
    (hr : inp.reader = Except.ok slides) :
    (inp.writeResult = none →
      runTrace inp = progressEvents slides.length ++
        [Event.wrote inp.output_path (md_content inp.pptx_path slides),
         Event.progress 100, Event.finished inp.output_path]) ∧
    (∀ m, inp.writeResult = some m →
      runTrace inp = progressEvents slides.length ++ [Event.error m]) ∧
    (∀ m, inp.writeResult = some m → slides.length < 2 ^ 54 →
      Event.progress 100 ∉ runTrace inp) := by
  refine ⟨?_, ?_, ?_⟩
  · intro hw
    unfold runTrace
    rw [hr, hw]
  · intro m hw
    unfold runTrace
    rw [hr, hw]
  · intro m hw hN hmem
    unfold runTrace at hmem
    rw [hr, hw] at hmem
    rcases List.mem_append.1 hmem with h | h
    · obtain ⟨i, hi, heq⟩ := mem_progressEvents h
      have hlt := pyProgress_lt_100 hi hN
      have h100 : 100 = pyProgress i slides.length := by
        injection heq
      omega
    · simp at h

/-- C5 (witness): the amended claim applied to a concrete successful
one-slide run. -/
theorem C5_witness :
    runTrace ⟨"d.pptx".data, "d.md".data, Except.ok [⟨[], none⟩], none⟩ =
      progressEvents 1 ++
        [Event.wrote "d.md".data (md_content "d.pptx".data [⟨[], none⟩]),
         Event.progress 100, Event.finished "d.md".data] :=
  (C5_amended ⟨"d.pptx".data, "d.md".data, Except.ok [⟨[], none⟩], none⟩
    [⟨[], none⟩] rfl).1 rfl

/-! ### Claim C6 -/

/-- C6 (counterexample): the claim as frozen is false: an empty deck
whose write raises yields a run with zero progress events and a Failure,
although the Reader succeeded — Reader failure is not the only
zero-progress path. -/
theorem C6_cex :
    runTrace ⟨"d.pptx".data, "d.md".data, Except.ok [], some "disk full".data⟩ =
      [Event.error "disk full".data] ∧
    progressValues
      (runTrace ⟨"d.pptx".data, "d.md".data, Except.ok [], some "disk full".data⟩) = [] ∧
    (∀ m, (Except.ok [] : Except (List Char) (List Slide)) ≠ Except.error m) := by
  refine ⟨by decide, by decide, fun m h => by cases h⟩

/-- C6 (amended): when the Reader fails the run immediately emits the
error signal, with no progress events, and stops; and a run emits zero
progress events exactly when either the Reader failed or the deck was
empty and the write raised. -/
theorem C6_amended (inp : RunInput) :
    (∀ m, inp.reader = Except.error m → runTrace inp = [Event.error m]) ∧
    (progressValues (runTrace inp) = [] →
      (∃ m, inp.reader = Except.error m) ∨
      (inp.reader = Except.ok [] ∧ ∃ m, inp.writeResult = some m)) := by
  constructor
  · intro m hm
    unfold runTrace
    rw [hm]
  · intro hpv
    rcases hrd : inp.reader with m | slides
    · exact Or.inl ⟨m, rfl⟩
    · right
      unfold runTrace at hpv
      rw [hrd] at hpv
      rcases hw : inp.writeResult with - | m
      · rw [hw] at hpv
        exfalso
        rw [progressValues_append] at hpv
        have h2 := (List.append_eq_nil.1 hpv).2
        simp [progressValues] at h2
      · rw [hw] at hpv
        rw [progressValues_append] at hpv
        have h2 := (List.append_eq_nil.1 hpv).1
        rw [progressValues_progressEvents] at h2
        have hN : slides.length = 0 := by
          by_contra hN
          have hne : List.range slides.length ≠ [] := by
            rw [Ne, List.range_eq_nil]
            exact hN
          exact hne (List.map_eq_nil_iff.1 h2)
        exact ⟨by rw [List.eq_nil_of_length_eq_zero hN], m, rfl⟩

/-- C6 (witness): the amended claim applied to a failing Reader. -/
theorem C6_witness :
    runTrace ⟨"bad.pptx".data, "bad.md".data, Except.error "not a pptx".data, none⟩ =
      [Event.error "not a pptx".data] :=
  (C6_amended ⟨"bad.pptx".data, "bad.md".data, Except.error "not a pptx".data, none⟩).1
    "not a pptx".data rfl

/-! ### Claim C7 -/

/-- C7: every run emits exactly one terminal result — a finished signal
or an error signal; never both, never neither. -/
theorem C7_one_terminal (inp : RunInput) : (runTrace inp).countP isTerminal = 1 := by
  rcases inp with ⟨pp, op, rdr, w⟩
  rcases rdr with m | slides
  · rfl
  · rcases w with - | m
    · show (progressEvents slides.length ++
        [Event.wrote op (md_content pp slides), Event.progress 100,
         Event.finished op]).countP isTerminal = 1
      rw [List.countP_append, countP_isTerminal_progressEvents]
      rfl
    · show (progressEvents slides.length ++ [Event.error m]).countP isTerminal = 1
      rw [List.countP_append, countP_isTerminal_progressEvents]
      rfl

/-! ### Claim C8 -/

/-- C8 (counterexample): the claim as frozen is false: over a 100-slide
deck the value emitted before slide 29 is 28 — the binary64 evaluation of
`int((29/100)*100)` — while `floor(29/100 * 100)` is 29. -/
theorem C8_cex :
    (progressValues (runTrace ⟨"d.pptx".data, "d.md".data,
        Except.ok (List.replicate 100 ⟨[], none⟩), none⟩))[29]? = some 28 ∧
    ⌊(29 : ℚ) / 100 * 100⌋ = 29 ∧ (28 : Nat) ≠ 29 := by
  refine ⟨?_, by norm_num, by decide⟩
  have h1 : runTrace ⟨"d.pptx".data, "d.md".data,
      Except.ok (List.replicate 100 ⟨[], none⟩), none⟩ =
      progressEvents 100 ++
        [Event.wrote "d.md".data (md_content "d.pptx".data (List.replicate 100 ⟨[], none⟩)),
         Event.progress 100, Event.finished "d.md".data] := by
    show progressEvents (List.replicate 100 (⟨[], none⟩ : Slide)).length ++ _ = _
    rw [List.length_replicate]
  rw [h1, progressValues_append, progressValues_progressEvents]
  rw [show progressValues
      [Event.wrote "d.md".data (md_content "d.pptx".data (List.replicate 100 ⟨[], none⟩)),
       Event.progress 100, Event.finished "d.md".data] = [100] from rfl]
  rw [List.getElem?_append_left (by simp)]
  rw [List.getElem?_map, List.getElem?_range (by omega : (29 : Nat) < 100)]
  rw [show Option.map (fun i => pyProgress i 100) (some 29) =
    some (pyProgress 29 100) from rfl]
  rw [pyProgress_29_100]

/-- C8 (amended): for a successful run the emitted progress values are
the per-slide binary64 evaluations of `int((i/N)*100)` followed by the
unconditional final 100; the sequence is non-decreasing, starts at 0 when
the deck is non-empty, always ends at 100, and is exactly `[100]` for an
empty deck.  (By the counterexample, the per-slide value can be one less
than the frozen claim's `floor(i/N*100)`, e.g. 28 versus 29 at `i = 29`,
`N = 100`.) -/
theorem C8_amended (inp : RunInput) (slides : List Slide)
    (hr : inp.reader = Except.ok slides) (hw : inp.writeResult = none) :
    progressValues (runTrace inp) =
      ((List.range slides.length).map (fun i => pyProgress i slides.length)) ++ [100] ∧
    (progressValues (runTrace inp)).Pairwise (· ≤ ·) ∧
    (0 < slides.length → (progressValues (runTrace inp)).head? = some 0) ∧
    (progressValues (runTrace inp)).getLast? = some 100 ∧
    (slides.length = 0 → progressValues (runTrace inp) = [100]) := by
  have hpv : progressValues (runTrace inp) =
      ((List.range slides.length).map (fun i => pyProgress i slides.length)) ++ [100] := by
    unfold runTrace
    rw [hr, hw]
    show progressValues (progressEvents slides.length ++
      [Event.wrote inp.output_path (md_content inp.pptx_path slides),
       Event.progress 100, Event.finished inp.output_path]) = _
    rw [progressValues_append, progressValues_progressEvents]
    rfl
  refine ⟨hpv, ?_, ?_, ?_, ?_⟩
  · rw [hpv, List.pairwise_append]
    refine ⟨?_, by simp, ?_⟩
    · exact (List.pairwise_lt_range slides.length).map _
        (fun a b h => pyProgress_mono (le_of_lt h))
    · intro a ha b hb
      simp only [List.mem_singleton] at hb
      subst hb
      simp only [List.mem_map, List.mem_range] at ha
      obtain ⟨i, hi, rfl⟩ := ha
      exact pyProgress_le_100 (le_of_lt hi)
  · intro hN
    rw [hpv]
    obtain ⟨k, hk⟩ : ∃ k, slides.length = k + 1 := ⟨slides.length - 1, by omega⟩
    rw [hk, List.range_succ_eq_map, List.map_cons]
    rw [List.cons_append, List.head?_cons, pyProgress_zero]
  · rw [hpv]
    simp [List.getLast?_append]
  · intro h0
    rw [hpv, h0]
    simp [List.range_zero]

/-- C8 (witness): the amended claim applied to a concrete two-slide run. -/
theorem C8_witness :
    progressValues (runTrace ⟨"d.pptx".data, "d.md".data,
        Except.ok [⟨[], none⟩, ⟨[], none⟩], none⟩) =
      ((List.range 2).map (fun i => pyProgress i 2)) ++ [100] ∧
    (progressValues (runTrace ⟨"d.pptx".data, "d.md".data,
        Except.ok [⟨[], none⟩, ⟨[], none⟩], none⟩)).Pairwise (· ≤ ·) := by
  have h := C8_amended ⟨"d.pptx".data, "d.md".data,
    Except.ok [⟨[], none⟩, ⟨[], none⟩], none⟩ [⟨[], none⟩, ⟨[], none⟩] rfl rfl
  exact ⟨h.1, h.2.1⟩

/-! ### Claim C9 -/

theorem writtenDocs_runTrace_ok (pp op : List Char) (slides : List Slide) :
    writtenDocs (runTrace ⟨pp, op, Except.ok slides, none⟩) = [md_content pp slides] := by
  show writtenDocs (progressEvents slides.length ++
    [Event.wrote op (md_content pp slides), Event.progress 100, Event.finished op]) = _
  rw [writtenDocs_append, writtenDocs_progressEvents]
  rfl

/-- C9: conversion is a pure function of the source content and base
name: two runs over the same source and reader outcome but different
destination paths write byte-identical documents, and a successful run
writes exactly `md_content` of the source. -/
theorem C9_dest_independent (src out1 out2 : List Char)
    (rdr : Except (List Char) (List Slide)) (w : Option (List Char)) :
    writtenDocs (runTrace ⟨src, out1, rdr, w⟩) = writtenDocs (runTrace ⟨src, out2, rdr, w⟩) ∧
    (∀ slides, rdr = Except.ok slides → w = none →
      writtenDocs (runTrace ⟨src, out1, rdr, w⟩) = [md_content src slides]) := by
  constructor
  · rcases rdr with m | slides
    · rfl
    · rcases w with - | m
      · rw [writtenDocs_runTrace_ok, writtenDocs_runTrace_ok]
      · show writtenDocs (progressEvents slides.length ++ [Event.error m]) = _
        rfl
  · intro slides hrd hw
    subst hrd
    subst hw
    exact writtenDocs_runTrace_ok src out1 slides

/-- C9 (witness): the pure-function claim applied to a concrete run. -/
theorem C9_witness :
    writtenDocs (runTrace ⟨"a/d.pptx".data, "out1.md".data, Except.ok [⟨[], none⟩], none⟩) =
      [md_content "a/d.pptx".data [⟨[], none⟩]] :=
  (C9_dest_independent "a/d.pptx".data "out1.md".data "out2.md".data
    (Except.ok [⟨[], none⟩]) none).2 [⟨[], none⟩] rfl rfl

/-! ### Claim C10 -/

/-- C10 (counterexample): the claim as frozen is false for astronomically
large decks: with 2^55 slides the binary64 progress value for the last
slide is already 100 inside the loop, so a progress event of 100 is
emitted before any write. -/
theorem C10_cex :
    (runTrace ⟨"d.pptx".data, "d.md".data,
        Except.ok (List.replicate 36028797018963968 ⟨[], none⟩), none⟩)[36028797018963967]? =
      some (Event.progress 100) ∧
    (∀ jj, jj < 36028797018963967 → ∀ path c,
      (runTrace ⟨"d.pptx".data, "d.md".data,
        Except.ok (List.replicate 36028797018963968 ⟨[], none⟩), none⟩)[jj]? ≠
        some (Event.wrote path c)) := by
  have h1 : runTrace ⟨"d.pptx".data, "d.md".data,
      Except.ok (List.replicate 36028797018963968 ⟨[], none⟩), none⟩ =
      progressEvents 36028797018963968 ++
        [Event.wrote "d.md".data
          (md_content "d.pptx".data (List.replicate 36028797018963968 ⟨[], none⟩)),
         Event.progress 100, Event.finished "d.md".data] := by
    show progressEvents (List.replicate 36028797018963968 (⟨[], none⟩ : Slide)).length ++ _ = _
    rw [List.length_replicate]
  constructor
  · rw [h1]
    rw [List.getElem?_append_left (by rw [progressEvents_length]; omega)]
    rw [progressEvents_getElem (by omega)]
    rw [pyProgress_huge]
  · intro jj hjj path c
    rw [h1]
    rw [List.getElem?_append_left (by rw [progressEvents_length]; omega)]
    rw [progressEvents_getElem (by omega : jj < 36028797018963968)]
    simp

/-- C10 (amended): for decks below 2^54 slides (by the counterexample the
frozen claim fails for larger decks, where the in-loop rounding itself
reaches 100), a progress event of 100 occurs only after the full output
document has been written, and the finished signal carrying the output
path occurs only after a progress event of 100. -/
theorem C10_amended (inp : RunInput) (slides : List Slide)
    (hr : inp.reader = Except.ok slides) (hN : slides.length < 2 ^ 54) :
    (∀ k : Nat, (runTrace inp)[k]? = some (Event.progress 100) →
      ∃ jj : Nat, jj < k ∧ (runTrace inp)[jj]? =
        some (Event.wrote inp.output_path (md_content inp.pptx_path slides))) ∧
    (∀ (k : Nat) (p : List Char), (runTrace inp)[k]? = some (Event.finished p) →
      ∃ jj : Nat, jj < k ∧ (runTrace inp)[jj]? = some (Event.progress 100)) := by
  rcases hw : inp.writeResult with - | m
  · have htr : runTrace inp = progressEvents slides.length ++
        [Event.wrote inp.output_path (md_content inp.pptx_path slides),
         Event.progress 100, Event.finished inp.output_path] := by
      unfold runTrace
      rw [hr, hw]
    have hwr : (runTrace inp)[slides.length]? =
        some (Event.wrote inp.output_path (md_content inp.pptx_path slides)) := by
      rw [htr, List.getElem?_append, progressEvents_length]
      rw [if_neg (by omega), Nat.sub_self]
      rfl
    have h100 : (runTrace inp)[slides.length + 1]? = some (Event.progress 100) := by
      rw [htr, List.getElem?_append, progressEvents_length]
      rw [if_neg (by omega), show slides.length + 1 - slides.length = 1 by omega]
      rfl
    constructor
    · intro k hk
      rw [htr, List.getElem?_append, progressEvents_length] at hk
      split_ifs at hk with hlt
      · rw [progressEvents_getElem hlt] at hk
        have heq : pyProgress k slides.length = 100 := by
          have h2 := Option.some_inj.1 hk
          injection h2
        have := pyProgress_lt_100 hlt hN
        omega
      · rcases hd : k - slides.length with - | - | - | d4
        · rw [hd] at hk
          simp at hk
        · exact ⟨slides.length, by omega, hwr⟩
        · rw [hd] at hk
          simp at hk
        · rw [hd] at hk
          simp at hk
    · intro k p hk
      rw [htr, List.getElem?_append, progressEvents_length] at hk
      split_ifs at hk with hlt
      · rw [progressEvents_getElem hlt] at hk
        simp at hk
      · rcases hd : k - slides.length with - | - | - | d4
        · rw [hd] at hk
          simp at hk
        · rw [hd] at hk
          simp at hk
        · exact ⟨slides.length + 1, by omega, h100⟩
        · rw [hd] at hk
          simp at hk
  · have htr : runTrace inp = progressEvents slides.length ++ [Event.error m] := by
      unfold runTrace
      rw [hr, hw]
    constructor
    · intro k hk
      rw [htr, List.getElem?_append, progressEvents_length] at hk
      split_ifs at hk with hlt
      · rw [progressEvents_getElem hlt] at hk
        have heq : pyProgress k slides.length = 100 := by
          have h2 := Option.some_inj.1 hk
          injection h2
        have := pyProgress_lt_100 hlt hN
        omega
      · rcases hd : k - slides.length with - | d2
        · rw [hd] at hk
          simp at hk
        · rw [hd] at hk
          simp at hk
    · intro k p hk
      rw [htr, List.getElem?_append, progressEvents_length] at hk
      split_ifs at hk with hlt
      · rw [progressEvents_getElem hlt] at hk
        simp at hk
      · rcases hd : k - slides.length with - | d2
        · rw [hd] at hk
          simp at hk
        · rw [hd] at hk
          simp at hk

/-- C10 (witness): the amended claim applied to a concrete one-slide run:
the finished signal has an earlier progress-100 event. -/
theorem C10_witness :
    ∃ jj, jj < 3 ∧
      (runTrace ⟨"d.pptx".data, "d.md".data, Except.ok [⟨[], none⟩], none⟩)[jj]? =
        some (Event.progress 100) := by
  have h3 : (runTrace ⟨"d.pptx".data, "d.md".data, Except.ok [⟨[], none⟩], none⟩)[3]? =
      some (Event.finished "d.md".data) := by
    show (progressEvents 1 ++ [_, _, _])[3]? = _
    rw [List.getElem?_append, progressEvents_length]
    rw [if_neg (by omega), show 3 - 1 = 2 by omega]
    rfl
  exact (C10_amended ⟨"d.pptx".data, "d.md".data, Except.ok [⟨[], none⟩], none⟩
    [⟨[], none⟩] rfl (by norm_num)).2 3 "d.md".data h3
